import Mathlib

/-!
Shallow embedding of the MiniHTTP fragmentation / reassembly / retry core of
the webtastic repository (src/fragment.py, src/server.py, src/server2.py,
src/client.py, src/client3.py), together with theorems settling the frozen
claims about its specification.

Python strings are modelled as lists of characters (`Str`), Python ints as
`Int`, dictionaries as association lists, and sets as lists with membership
(duplicates are never inserted, so list membership coincides with set
membership).
-/

set_option maxRecDepth 100000

namespace MiniHTTP

/-- Model of a Python `str`: a sequence of code points. -/
abbrev Str := List Char

/-! ### fragment.py -/

/-- Fuel-indexed chunking loop; the fuel is an upper bound on the number of
remaining characters, so it never runs out on the call below.  Models
`for i in range(0, len(content), 122): fragments.append(content[i:i+122])`
from `fragment.py`: consecutive slices of 122 characters, empty input
producing no iterations. -/
def chunkGo : Nat → Str → List Str
  | _, [] => []
  | 0, _ :: _ => []
  | fuel + 1, c :: cs => ((c :: cs).take 122) :: chunkGo fuel ((c :: cs).drop 122)

/-- Model of `fragment_html_file` from `fragment.py`, applied to the content
string read from the file: splits the content into consecutive 122-character
slices (the last possibly shorter); an empty content yields the empty list,
since `range(0, 0, 122)` performs no iterations. -/
def fragment_html_file (content : Str) : List Str :=
  chunkGo content.length content

theorem chunkGo_congr :
    ∀ (f1 f2 : Nat) (cs : Str), cs.length ≤ f1 → cs.length ≤ f2 →
      chunkGo f1 cs = chunkGo f2 cs := by
  intro f1
  induction f1 with
  | zero =>
    intro f2 cs h1 _
    have hcs : cs = [] := List.eq_nil_of_length_eq_zero (Nat.le_zero.mp h1)
    subst hcs
    cases f2 <;> rfl
  | succ f1 ih =>
    intro f2 cs h1 h2
    cases cs with
    | nil => cases f2 <;> rfl
    | cons c cs' =>
      cases f2 with
      | zero => simp at h2
      | succ f2 =>
        simp only [chunkGo]
        congr 1
        apply ih
        · have : ((c :: cs').drop 122).length = (c :: cs').length - 122 := by
            simp
          omega
        · have : ((c :: cs').drop 122).length = (c :: cs').length - 122 := by
            simp
          omega

theorem fragment_cons (c : Str) (h : c ≠ []) :
    fragment_html_file c = c.take 122 :: fragment_html_file (c.drop 122) := by
  cases c with
  | nil => exact absurd rfl h
  | cons x xs =>
    simp only [fragment_html_file, List.length_cons, chunkGo]
    congr 1
    apply chunkGo_congr
    · simp
    · simp

theorem fragment_nil : fragment_html_file [] = [] := rfl

theorem fragment_ne_nil (c : Str) (h : c ≠ []) : fragment_html_file c ≠ [] := by
  rw [fragment_cons c h]
  simp

theorem join_fragment_aux :
    ∀ (n : Nat) (c : Str), c.length ≤ n → (fragment_html_file c).flatten = c := by
  intro n
  induction n with
  | zero =>
    intro c hc
    have : c = [] := List.eq_nil_of_length_eq_zero (Nat.le_zero.mp hc)
    subst this
    rfl
  | succ n ih =>
    intro c hc
    by_cases h : c = []
    · subst h; rfl
    · rw [fragment_cons c h]
      have hlen : 1 ≤ c.length := by
        cases c with
        | nil => exact absurd rfl h
        | cons _ _ => simp
      have hdrop : (c.drop 122).length ≤ n := by
        have : (c.drop 122).length = c.length - 122 := by simp
        omega
      rw [List.flatten_cons, ih (c.drop 122) hdrop]
      exact List.take_append_drop 122 c

theorem chunk_le_aux :
    ∀ (n : Nat) (c : Str), c.length ≤ n →
      ∀ ch ∈ fragment_html_file c, ch.length ≤ 122 := by
  intro n
  induction n with
  | zero =>
    intro c hc
    have : c = [] := List.eq_nil_of_length_eq_zero (Nat.le_zero.mp hc)
    subst this
    intro ch hch
    simp [fragment_nil] at hch
  | succ n ih =>
    intro c hc
    by_cases h : c = []
    · subst h; intro ch hch; simp [fragment_nil] at hch
    · rw [fragment_cons c h]
      intro ch hch
      rcases List.mem_cons.mp hch with h1 | h2
      · subst h1
        simp [List.length_take]
      · have hdrop : (c.drop 122).length ≤ n := by
          have hlen : 1 ≤ c.length := by
            cases c with
            | nil => exact absurd rfl h
            | cons _ _ => simp
          have : (c.drop 122).length = c.length - 122 := by simp
          omega
        exact ih (c.drop 122) hdrop ch h2

theorem chunk_dropLast_aux :
    ∀ (n : Nat) (c : Str), c.length ≤ n →
      ∀ ch ∈ (fragment_html_file c).dropLast, ch.length = 122 := by
  intro n
  induction n with
  | zero =>
    intro c hc
    have : c = [] := List.eq_nil_of_length_eq_zero (Nat.le_zero.mp hc)
    subst this
    intro ch hch
    simp [fragment_nil] at hch
  | succ n ih =>
    intro c hc
    by_cases h : c = []
    · subst h; intro ch hch; simp [fragment_nil] at hch
    · rw [fragment_cons c h]
      by_cases hd : c.drop 122 = []
      · rw [hd, fragment_nil]
        intro ch hch
        simp at hch
      · intro ch hch
        have hne := fragment_ne_nil (c.drop 122) hd
        rw [List.dropLast_cons_of_ne_nil hne] at hch
        rcases List.mem_cons.mp hch with h1 | h2
        · subst h1
          have : 122 < c.length := by
            by_contra hle
            push_neg at hle
            exact hd (List.drop_eq_nil_of_le hle)
          simp [List.length_take]
          omega
        · have hdrop : (c.drop 122).length ≤ n := by
            have hlen : 1 ≤ c.length := by
              cases c with
              | nil => exact absurd rfl h
              | cons _ _ => simp
            have : (c.drop 122).length = c.length - 122 := by simp
            omega
          exact ih (c.drop 122) hdrop ch h2

/-- C1: joining the chunks produced by fragmenting any content string at
chunk size 122 yields exactly the original content; every chunk has length at
most 122, and every chunk before the last has length exactly 122. -/
theorem fragment_roundtrip (c : Str) :
    (fragment_html_file c).flatten = c
    ∧ (∀ ch ∈ fragment_html_file c, ch.length ≤ 122)
    ∧ (∀ ch ∈ (fragment_html_file c).dropLast, ch.length = 122) :=
  ⟨join_fragment_aux c.length c le_rfl,
   chunk_le_aux c.length c le_rfl,
   chunk_dropLast_aux c.length c le_rfl⟩

/-- C2 counterexample: fragmenting the empty content string yields the empty
list of chunks, not a single empty chunk, so the fragment count is 0, not 1. -/
theorem fragment_empty_counterexample :
    fragment_html_file [] = [] ∧ fragment_html_file [] ≠ [[]] := by
  constructor
  · rfl
  · simp [fragment_nil]

/-- C2 (amended): fragmenting an empty content string returns the empty
sequence of chunks, so the total fragment count for an empty resource is 0. -/
theorem fragment_empty_amended :
    fragment_html_file [] = [] ∧ (fragment_html_file []).length = 0 :=
  ⟨rfl, rfl⟩

/-! ### server.py and server2.py: the Responder -/

/-- Model of an incoming GET envelope: the fields read by the servers after
JSON parsing (`type`, `path`, and the optional `frag` index). -/
structure GetMsg where
  type : Str
  path : Str
  frag : Option Int
deriving DecidableEq, Repr

/-- Model of an outgoing RESP envelope, with the fields the servers emit
(`type` is always `"RESP"` and is left implicit). -/
structure RespEnv where
  path : Str
  frag : Int
  of_frag : Int
  data : Str
deriving DecidableEq, Repr

/-- Model of `create_response_envelopes` from `server.py`: one RESP per
fragment, `frag` the 1-based position, `of_frag` the total count. -/
def create_response_envelopes (path : Str) (fragments : List Str) : List RespEnv :=
  fragments.enum.map fun p => ⟨path, (p.1 : Int) + 1, (fragments.length : Int), p.2⟩

/-- The resource-store collaborator: resolves a filesystem path to the file
content, or fails (`FileNotFoundError`). -/
abbrev Store := Str → Option Str

/-- Model of `handle_get_message` from `server.py`: maps a GET request to the
list of response envelopes.  Non-GET and empty-path requests yield nothing;
`FileNotFoundError` yields the empty list; a request with a `frag` index
serves exactly that envelope when `1 ≤ frag ≤ len(fragments)` and nothing
otherwise; a request without `frag` serves the full envelope sequence. -/
def handle_get_message (store : Store) (msg : GetMsg) : List RespEnv :=
  if msg.type ≠ "GET".data then []
  else if msg.path = [] then []
  else
    match store ("html".data ++ msg.path) with
    | none => []
    | some content =>
      let fragments := fragment_html_file content
      match msg.frag with
      | some fragNum =>
        if 1 ≤ fragNum ∧ fragNum ≤ (fragments.length : Int) then
          [(create_response_envelopes msg.path fragments).getD (fragNum.toNat - 1)
            ⟨msg.path, 0, 0, []⟩]
        else []
      | none => create_response_envelopes msg.path fragments

/-- Model of the filesystem-path normalization in `server2.py`'s
`handle_packet`: `"/html/x"` → `"html/x"` (all leading slashes stripped),
`"/x"` → `"html/x"`, `"x"` → `"html/x"` (via `os.path.join`). -/
def fsPath (path : Str) : Str :=
  if ("/html/".data).isPrefixOf path then path.dropWhile (fun c => c = '/')
  else if ("/".data).isPrefixOf path then "html".data ++ path
  else "html/".data ++ path

/-- The single error envelope `server2.py` sends when the resource store
fails: `{"type": "RESP", "path": path, "frag": 1, "of_frag": 1,
"data": "404: <path> not found"}`. -/
def notFoundResp (path : Str) : RespEnv :=
  ⟨path, 1, 1, "404: ".data ++ path ++ " not found".data⟩

/-- Model of the GET-serving portion of `handle_packet` from `server2.py`,
returning the envelopes it sends in order.  The echo fallback for non-GET
frames and the self-packet / transport plumbing are outside the responder
contract and not modelled: a non-GET request yields the empty list here. -/
def handle_packet (store : Store) (req : GetMsg) : List RespEnv :=
  if req.type.map Char.toUpper = "GET".data then
    let path := if req.path = [] then "/".data else req.path
    match store (fsPath path) with
    | none => [notFoundResp path]
    | some content =>
      let frags := fragment_html_file content
      let total := frags.length
      match req.frag with
      | some f =>
        if 1 ≤ f ∧ f ≤ (total : Int) then
          [⟨path, f, (total : Int), frags.getD (f.toNat - 1) []⟩]
        else []
      | none => frags.enum.map fun p => ⟨path, (p.1 : Int) + 1, (total : Int), p.2⟩
  else []

theorem create_response_envelopes_getD (p : Str) (l : List Str) (i : Nat) (d : RespEnv)
    (h : i < l.length) :
    (create_response_envelopes p l).getD i d
      = ⟨p, (i : Int) + 1, (l.length : Int), l.getD i []⟩ := by
  rw [List.getD_eq_getElem?_getD, List.getD_eq_getElem?_getD]
  unfold create_response_envelopes
  rw [List.getElem?_map, List.getElem?_enum]
  rw [List.getElem?_eq_getElem h]
  rfl

/-- C3 counterexample: `handle_get_message` in `server.py` answers a GET for
an unresolvable path with the empty envelope sequence — zero envelopes, not a
single error RESP. -/
theorem notfound_counterexample :
    handle_get_message (fun _ => none) ⟨"GET".data, "/missing.html".data, none⟩ = []
    ∧ (handle_get_message (fun _ => none)
        ⟨"GET".data, "/missing.html".data, none⟩).length ≠ 1 := by
  constructor
  · rfl
  · decide

/-- C3 (amended): on a resource-store miss, `server2.py`'s `handle_packet`
emits exactly one RESP with `frag = 1`, `of_frag = 1` and a
`404: <path> not found` error string in `data`; `server.py`'s
`handle_get_message`, however, returns the empty sequence on `NotFound`. -/
theorem notfound_amended :
    (∀ (store : Store) (req : GetMsg),
      req.type.map Char.toUpper = "GET".data → req.path ≠ [] →
      store (fsPath req.path) = none →
      handle_packet store req = [notFoundResp req.path])
    ∧ (∀ (store : Store) (msg : GetMsg),
      msg.type = "GET".data → msg.path ≠ [] →
      store ("html".data ++ msg.path) = none →
      handle_get_message store msg = []) := by
  constructor
  · intro store req htype hpath hstore
    simp only [handle_packet, if_pos htype, if_neg hpath, hstore]
  · intro store msg htype hpath hstore
    unfold handle_get_message
    rw [if_neg (fun h => h htype), if_neg hpath, hstore]

/-- C3 witness: a concrete GET for `/missing.html` against the empty store
gets the single 404 envelope from `handle_packet`, while `handle_get_message`
returns the empty sequence. -/
theorem notfound_amended_witness :
    handle_packet (fun _ => none) ⟨"GET".data, "/missing.html".data, none⟩
      = [notFoundResp "/missing.html".data]
    ∧ handle_get_message (fun _ => none) ⟨"GET".data, "/missing.html".data, none⟩ = [] :=
  ⟨notfound_amended.1 (fun _ => none) ⟨"GET".data, "/missing.html".data, none⟩
      (by decide) (by decide) rfl,
   notfound_amended.2 (fun _ => none) ⟨"GET".data, "/missing.html".data, none⟩
      rfl (by decide) rfl⟩

/-- C6: for a GET carrying a specific fragment index `f` against a resource
that resolves to `content`, both responders emit exactly the one matching
RESP envelope when `1 ≤ f ≤ of_frag`, and emit nothing when `f` is out of
that range. -/
theorem single_fragment_request (store : Store) (msg : GetMsg) (content : Str) (f : Int)
    (htype : msg.type = "GET".data) (hpath : msg.path ≠ [])
    (hfrag : msg.frag = some f)
    (hstore : store ("html".data ++ msg.path) = some content)
    (hstore2 : store (fsPath msg.path) = some content) :
    (1 ≤ f ∧ f ≤ ((fragment_html_file content).length : Int) →
      handle_get_message store msg
        = [⟨msg.path, f, ((fragment_html_file content).length : Int),
            (fragment_html_file content).getD (f.toNat - 1) []⟩]
      ∧ handle_packet store msg
        = [⟨msg.path, f, ((fragment_html_file content).length : Int),
            (fragment_html_file content).getD (f.toNat - 1) []⟩])
    ∧ (¬(1 ≤ f ∧ f ≤ ((fragment_html_file content).length : Int)) →
      handle_get_message store msg = [] ∧ handle_packet store msg = []) := by
  have htype2 : msg.type.map Char.toUpper = "GET".data := by
    rw [htype]; decide
  constructor
  · intro hin
    constructor
    · have hlt : f.toNat - 1 < (fragment_html_file content).length := by omega
      have hco : ((f.toNat - 1 : Nat) : Int) + 1 = f := by omega
      unfold handle_get_message
      rw [if_neg (fun h => h htype), if_neg hpath, hstore]
      simp only [hfrag]
      rw [if_pos hin,
        create_response_envelopes_getD msg.path (fragment_html_file content)
          (f.toNat - 1) _ hlt, hco]
    · simp only [handle_packet, if_pos htype2, if_neg hpath, hstore2, hfrag,
        if_pos hin]
  · intro hout
    constructor
    · unfold handle_get_message
      rw [if_neg (fun h => h htype), if_neg hpath, hstore]
      simp only [hfrag]
      rw [if_neg hout]
    · simp only [handle_packet, if_pos htype2, if_neg hpath, hstore2, hfrag,
        if_neg hout]

/-- C6 witness: a GET with `frag = 7` against a 3-fragment resource (300
characters, chunked at 122) makes both responders emit nothing. -/
theorem single_fragment_request_witness :
    ¬(1 ≤ (7 : Int) ∧ (7 : Int) ≤ ((fragment_html_file (List.replicate 300 'a')).length : Int))
    ∧ handle_get_message
        (fun p => if p = "html/index.html".data then some (List.replicate 300 'a') else none)
        ⟨"GET".data, "/index.html".data, some 7⟩ = []
    ∧ handle_packet
        (fun p => if p = "html/index.html".data then some (List.replicate 300 'a') else none)
        ⟨"GET".data, "/index.html".data, some 7⟩ = [] :=
  ⟨by decide,
   (single_fragment_request
      (fun p => if p = "html/index.html".data then some (List.replicate 300 'a') else none)
      ⟨"GET".data, "/index.html".data, some 7⟩ (List.replicate 300 'a') 7
      rfl (by decide) rfl (by decide) (by decide)).2 (by decide)⟩

/-! ### client3.py: FragmentAssembler (the Reassembler) -/

/-- Reassembly key, `(path, total)` as in `client3.py`. -/
abbrev Key := Str × Int

/-- Dedup signature, `(path, total, frag, len(data))` as in `client3.py`. -/
abbrev Sig := Str × Int × Int × Nat

/-- A reassembly buffer: `[None] * total` progressively filled with payloads. -/
abbrev Buffer := List (Option Str)

/-- Dictionary lookup on the association-list model of `self._bykey`. -/
def lookupKey : List (Key × Buffer) → Key → Option Buffer
  | [], _ => none
  | (k', v) :: rest, k => if k' = k then some v else lookupKey rest k

/-- Dictionary write `d[k] = v` on the association-list model: replaces the
binding when the key is present, otherwise appends a new binding. -/
def setKey : List (Key × Buffer) → Key → Buffer → List (Key × Buffer)
  | [], k, v => [(k, v)]
  | (k', v') :: rest, k, v =>
    if k' = k then (k, v) :: rest else (k', v') :: setKey rest k v

/-- Dictionary deletion `del d[k]` on the association-list model. -/
def eraseKey (l : List (Key × Buffer)) (k : Key) : List (Key × Buffer) :=
  l.filter fun p => p.1 ≠ k

/-- State of a `FragmentAssembler`: the `_bykey` dictionary of buffers and the
`_seen` set of signatures (a duplicate-free list). -/
structure AssemblerState where
  bykey : List (Key × Buffer)
  seen : List Sig
deriving DecidableEq, Repr

/-- The empty `FragmentAssembler` state built by `__init__`. -/
def initState : AssemblerState := ⟨[], []⟩

/-- An incoming message as read by `FragmentAssembler.add`: the `type`,
`path`, `data` fields and the `of_frag` / `frag` fields after `_to_int`
coercion. -/
structure RespMsg where
  type : Str
  path : Str
  of_frag : Int
  frag : Int
  data : Str
deriving DecidableEq, Repr

/-- The observable outcome of one `FragmentAssembler.add` call, distinguishing
the code's branches (non-RESP, malformed-warning, duplicate-ignored, progress,
and completion returning the joined content). -/
inductive AddResult where
  | notResp
  | malformed
  | duplicate
  | progress
  | complete (html : Str)
deriving DecidableEq, Repr

/-- Model of `''.join(x or '' for x in buf)`. -/
def joinBuf (buf : Buffer) : Str :=
  (buf.map fun o => o.getD []).flatten

/-- Signature of a message, `(path, total, frag, len(data))`. -/
def sigOf (msg : RespMsg) : Sig :=
  (msg.path, msg.of_frag, msg.frag, msg.data.length)

/-- The malformed-fragment test of `FragmentAssembler.add`:
`not path or total <= 0 or frag <= 0 or frag > total`. -/
def badMsg (msg : RespMsg) : Prop :=
  msg.path = [] ∨ msg.of_frag ≤ 0 ∨ msg.frag ≤ 0 ∨ msg.of_frag < msg.frag

instance (msg : RespMsg) : Decidable (badMsg msg) := by
  unfold badMsg; infer_instance

/-- Model of `FragmentAssembler.add` from `client3.py`: rejects non-RESP
messages, warns on malformed fragment numbering, drops already-seen
signatures, otherwise records the signature, writes the payload into slot
`frag - 1` of the buffer for `(path, total)` (created as `[None] * total` when
absent), and on a full buffer returns the joined content and deletes the
buffer. -/
def add (s : AssemblerState) (msg : RespMsg) : AddResult × AssemblerState :=
  if msg.type ≠ "RESP".data then (.notResp, s)
  else if badMsg msg then (.malformed, s)
  else
    let key : Key := (msg.path, msg.of_frag)
    let sig : Sig := sigOf msg
    if sig ∈ s.seen then (.duplicate, s)
    else
      let seen1 := sig :: s.seen
      let buf := (lookupKey s.bykey key).getD (List.replicate msg.of_frag.toNat none)
      let buf1 := buf.set (msg.frag.toNat - 1) (some msg.data)
      let have1 := (buf1.filter fun x => x.isSome).length
      if have1 = msg.of_frag.toNat then
        (.complete (joinBuf buf1), ⟨eraseKey s.bykey key, seen1⟩)
      else
        (.progress, ⟨setKey s.bykey key buf1, seen1⟩)

theorem lookupKey_setKey_self (l : List (Key × Buffer)) (k : Key) (v : Buffer) :
    lookupKey (setKey l k v) k = some v := by
  induction l with
  | nil => simp [setKey, lookupKey]
  | cons p rest ih =>
    by_cases h : p.1 = k
    · simp [setKey, h, lookupKey]
    · simp [setKey, h, lookupKey, ih]

theorem lookupKey_eraseKey_self (l : List (Key × Buffer)) (k : Key) :
    lookupKey (eraseKey l k) k = none := by
  induction l with
  | nil => rfl
  | cons p rest ih =>
    by_cases h : p.1 = k
    · simpa [eraseKey, h] using ih
    · simpa [eraseKey, h, lookupKey] using ih

theorem add_notResp (s : AssemblerState) (msg : RespMsg)
    (h : msg.type ≠ "RESP".data) : add s msg = (.notResp, s) := by
  simp [add, h]

theorem add_malformed (s : AssemblerState) (msg : RespMsg)
    (ht : msg.type = "RESP".data) (hb : badMsg msg) :
    add s msg = (.malformed, s) := by
  simp [add, ht, hb]

theorem add_duplicate (s : AssemblerState) (msg : RespMsg)
    (ht : msg.type = "RESP".data) (hb : ¬badMsg msg)
    (hs : sigOf msg ∈ s.seen) : add s msg = (.duplicate, s) := by
  simp [add, ht, hb, hs]

theorem add_fresh (s : AssemblerState) (msg : RespMsg)
    (ht : msg.type = "RESP".data) (hb : ¬badMsg msg)
    (hs : sigOf msg ∉ s.seen) :
    add s msg =
      (let buf1 := ((lookupKey s.bykey (msg.path, msg.of_frag)).getD
          (List.replicate msg.of_frag.toNat none)).set
          (msg.frag.toNat - 1) (some msg.data)
       if (buf1.filter fun x => x.isSome).length = msg.of_frag.toNat then
         (.complete (joinBuf buf1), ⟨eraseKey s.bykey (msg.path, msg.of_frag),
           sigOf msg :: s.seen⟩)
       else
         (.progress, ⟨setKey s.bykey (msg.path, msg.of_frag) buf1,
           sigOf msg :: s.seen⟩)) := by
  simp only [add, ht, hb, hs]
  simp

theorem add_seen_after (s : AssemblerState) (msg : RespMsg)
    (ht : msg.type = "RESP".data) (hb : ¬badMsg msg) :
    sigOf msg ∈ (add s msg).2.seen := by
  by_cases hs : sigOf msg ∈ s.seen
  · rw [add_duplicate s msg ht hb hs]; exact hs
  · rw [add_fresh s msg ht hb hs]
    by_cases hc :
        (((((lookupKey s.bykey (msg.path, msg.of_frag)).getD
          (List.replicate msg.of_frag.toNat none)).set
          (msg.frag.toNat - 1) (some msg.data)).filter fun x => x.isSome).length
          = msg.of_frag.toNat)
    · simp only [if_pos hc]; exact List.mem_cons_self _ _
    · simp only [if_neg hc]; exact List.mem_cons_self _ _

theorem filter_isSome_replicate_set (n i : Nat) (d : Str) (h : i < n) :
    (((List.replicate n (none : Option Str)).set i (some d)).filter
      fun x => x.isSome).length = 1 := by
  induction n generalizing i with
  | zero => omega
  | succ n ih =>
    cases i with
    | zero =>
      simp [List.replicate_succ, List.filter_cons, List.filter_replicate]
    | succ j =>
      simp only [List.replicate_succ, List.set_cons_succ, List.filter_cons]
      simpa using ih j (by omega)

/-- C4: delivering the same envelope twice in a row leaves the assembler in
exactly the state reached by delivering it once, and a delivery whose
signature `(path, of, frag, len(data))` is already seen returns the
duplicate-ignored result without mutating any state. -/
theorem duplicate_delivery_idempotent (s : AssemblerState) (msg : RespMsg) :
    (add (add s msg).2 msg).2 = (add s msg).2
    ∧ (msg.type = "RESP".data → ¬badMsg msg → sigOf msg ∈ s.seen →
        add s msg = (.duplicate, s)) := by
  constructor
  · by_cases ht : msg.type = "RESP".data
    · by_cases hb : badMsg msg
      · simp [add_malformed s msg ht hb]
      · by_cases hs : sigOf msg ∈ s.seen
        · simp [add_duplicate s msg ht hb hs]
        · have h2 := add_seen_after s msg ht hb
          simp [add_duplicate (add s msg).2 msg ht hb h2]
    · simp [add_notResp s msg ht]
  · intro ht hb hs
    exact add_duplicate s msg ht hb hs

/-- C4 witness: a concrete envelope whose signature is already in the seen
set is ignored, and the double delivery ends in the single-delivery state. -/
theorem duplicate_delivery_idempotent_witness :
    (add (add ⟨[], [("/a".data, 2, 1, 1)]⟩
        ⟨"RESP".data, "/a".data, 2, 1, "x".data⟩).2
        ⟨"RESP".data, "/a".data, 2, 1, "x".data⟩).2
      = (add ⟨[], [("/a".data, 2, 1, 1)]⟩
        ⟨"RESP".data, "/a".data, 2, 1, "x".data⟩).2
    ∧ add ⟨[], [("/a".data, 2, 1, 1)]⟩ ⟨"RESP".data, "/a".data, 2, 1, "x".data⟩
      = (.duplicate, ⟨[], [("/a".data, 2, 1, 1)]⟩) :=
  ⟨(duplicate_delivery_idempotent ⟨[], [("/a".data, 2, 1, 1)]⟩
      ⟨"RESP".data, "/a".data, 2, 1, "x".data⟩).1,
   (duplicate_delivery_idempotent ⟨[], [("/a".data, 2, 1, 1)]⟩
      ⟨"RESP".data, "/a".data, 2, 1, "x".data⟩).2 rfl (by decide) (by decide)⟩

/-- C5: an envelope with semantically invalid fragment numbering (`of ≤ 0`,
`frag ≤ 0`, or `frag > of`) yields the malformed result and leaves the whole
assembler state unchanged. -/
theorem malformed_fragment_atomic (s : AssemblerState) (msg : RespMsg)
    (ht : msg.type = "RESP".data)
    (hb : msg.of_frag ≤ 0 ∨ msg.frag ≤ 0 ∨ msg.of_frag < msg.frag) :
    add s msg = (.malformed, s) :=
  add_malformed s msg ht (Or.inr hb)

/-- C5 witness: a concrete envelope with `frag > of` is rejected as malformed
with the (non-empty) state intact. -/
theorem malformed_fragment_atomic_witness :
    add ⟨[(("/a".data, 3), [none, none, none])], [("/a".data, 3, 1, 1)]⟩
      ⟨"RESP".data, "/a".data, 3, 7, "x".data⟩
      = (.malformed, ⟨[(("/a".data, 3), [none, none, none])], [("/a".data, 3, 1, 1)]⟩) :=
  malformed_fragment_atomic ⟨[(("/a".data, 3), [none, none, none])], [("/a".data, 3, 1, 1)]⟩
    ⟨"RESP".data, "/a".data, 3, 7, "x".data⟩ rfl (by decide)

/-- C9: acceptance depends on the payload only through its length — after a
valid fragment is accepted, a second envelope with the same `path`, `of`,
`frag` and payload length but different payload is dropped as a duplicate
without touching the state, and the stored slot still holds the first
payload. -/
theorem same_length_retransmission_ignored (s : AssemblerState) (e1 e2 : RespMsg)
    (ht1 : e1.type = "RESP".data) (ht2 : e2.type = "RESP".data)
    (hp : e2.path = e1.path) (ho : e2.of_frag = e1.of_frag) (hf : e2.frag = e1.frag)
    (hlen : e2.data.length = e1.data.length) (hne : e2.data ≠ e1.data)
    (hb : ¬badMsg e1) (hs : sigOf e1 ∉ s.seen)
    (hwf : ∀ k b, lookupKey s.bykey k = some b → b.length = k.2.toNat) :
    add (add s e1).2 e2 = (.duplicate, (add s e1).2)
    ∧ (∀ b, lookupKey (add s e1).2.bykey (e1.path, e1.of_frag) = some b →
        b[e1.frag.toNat - 1]? = some (some e1.data)) := by
  have hsig : sigOf e2 = sigOf e1 := by
    unfold sigOf
    rw [hp, ho, hf, hlen]
  have hb2 : ¬badMsg e2 := by
    unfold badMsg at hb ⊢
    rw [hp, ho, hf]
    exact hb
  have hfresh := add_fresh s e1 ht1 hb hs
  have hrange : e1.frag.toNat - 1
      < ((lookupKey s.bykey (e1.path, e1.of_frag)).getD
          (List.replicate e1.of_frag.toNat none)).length := by
    unfold badMsg at hb
    push_neg at hb
    obtain ⟨_, hof, hfr, hle⟩ := hb
    rcases hbuf : lookupKey s.bykey (e1.path, e1.of_frag) with _ | b0
    · simp [hbuf]
      omega
    · have := hwf (e1.path, e1.of_frag) b0 hbuf
      simp [hbuf, this]
      omega
  constructor
  · have hseen : sigOf e2 ∈ (add s e1).2.seen := by
      rw [hsig]
      exact add_seen_after s e1 ht1 hb
    exact add_duplicate (add s e1).2 e2 ht2 hb2 hseen
  · intro b hlook
    rw [hfresh] at hlook
    by_cases hc :
        (((((lookupKey s.bykey (e1.path, e1.of_frag)).getD
          (List.replicate e1.of_frag.toNat none)).set
          (e1.frag.toNat - 1) (some e1.data)).filter fun x => x.isSome).length
          = e1.of_frag.toNat)
    · rw [if_pos hc] at hlook
      simp only [lookupKey_eraseKey_self] at hlook
      exact Option.noConfusion hlook
    · rw [if_neg hc] at hlook
      simp only [lookupKey_setKey_self] at hlook
      obtain rfl := (Option.some_injective _ hlook).symm
      exact List.getElem?_set_self hrange

/-- C9 witness: on an empty assembler, accepting `"x"` for slot 1 of 2 and
then a different same-length payload `"y"` for the same coordinates leaves
slot 1 holding `"x"` and ignores the retransmission as a duplicate. -/
theorem same_length_retransmission_ignored_witness :
    add (add initState ⟨"RESP".data, "/a".data, 2, 1, "x".data⟩).2
        ⟨"RESP".data, "/a".data, 2, 1, "y".data⟩
      = (.duplicate, (add initState ⟨"RESP".data, "/a".data, 2, 1, "x".data⟩).2)
    ∧ ([some "x".data, none] : Buffer)[(1 : Int).toNat - 1]? = some (some "x".data) :=
  ⟨(same_length_retransmission_ignored initState
      ⟨"RESP".data, "/a".data, 2, 1, "x".data⟩
      ⟨"RESP".data, "/a".data, 2, 1, "y".data⟩
      rfl rfl rfl rfl rfl rfl (by decide) (by decide) (by decide)
      (fun _ _ h => nomatch h)).1,
   (same_length_retransmission_ignored initState
      ⟨"RESP".data, "/a".data, 2, 1, "x".data⟩
      ⟨"RESP".data, "/a".data, 2, 1, "y".data⟩
      rfl rfl rfl rfl rfl rfl (by decide) (by decide) (by decide)
      (fun _ _ h => nomatch h)).2 [some "x".data, none] (by decide)⟩

/-- C10 counterexample: on a 1-fragment key, after a completing delivery a
retransmission with a fresh signature (different payload length) is accepted
into a fresh buffer and immediately returns the complete result again — not
the progress result the claim announces. -/
theorem completion_reuse_counterexample :
    (add (add initState ⟨"RESP".data, "/a".data, 1, 1, "x".data⟩).2
        ⟨"RESP".data, "/a".data, 1, 1, "yy".data⟩).1
      = .complete "yy".data
    ∧ (add (add initState ⟨"RESP".data, "/a".data, 1, 1, "x".data⟩).2
        ⟨"RESP".data, "/a".data, 1, 1, "yy".data⟩).1
      ≠ .progress := by
  constructor
  · decide
  · decide

/-- C10 (amended): a completing delivery deletes the key's buffer while
keeping every seen signature; afterwards an envelope with an already-seen
signature is ignored without mutation, and an envelope for the key with a
not-yet-seen valid signature is accepted into a freshly created all-empty
buffer — returning progress whenever `of ≥ 2` (with `of = 1` the single fresh
fragment completes the new buffer immediately instead). -/
theorem completion_lifecycle_amended :
    (∀ (s : AssemblerState) (msg : RespMsg) (r : Str) (s1 : AssemblerState),
      add s msg = (.complete r, s1) →
      lookupKey s1.bykey (msg.path, msg.of_frag) = none
      ∧ s1.seen = sigOf msg :: s.seen)
    ∧ (∀ (s : AssemblerState) (msg : RespMsg),
      msg.type = "RESP".data → ¬badMsg msg → sigOf msg ∈ s.seen →
      add s msg = (.duplicate, s))
    ∧ (∀ (s : AssemblerState) (msg : RespMsg),
      msg.type = "RESP".data → ¬badMsg msg → sigOf msg ∉ s.seen →
      lookupKey s.bykey (msg.path, msg.of_frag) = none → 2 ≤ msg.of_frag →
      add s msg = (.progress,
        ⟨setKey s.bykey (msg.path, msg.of_frag)
          ((List.replicate msg.of_frag.toNat none).set
            (msg.frag.toNat - 1) (some msg.data)),
         sigOf msg :: s.seen⟩)) := by
  refine ⟨?_, ?_, ?_⟩
  · intro s msg r s1 h
    by_cases ht : msg.type = "RESP".data
    · by_cases hb : badMsg msg
      · rw [add_malformed s msg ht hb] at h
        simp at h
      · by_cases hs : sigOf msg ∈ s.seen
        · rw [add_duplicate s msg ht hb hs] at h
          simp at h
        · rw [add_fresh s msg ht hb hs] at h
          by_cases hc :
              (((((lookupKey s.bykey (msg.path, msg.of_frag)).getD
                (List.replicate msg.of_frag.toNat none)).set
                (msg.frag.toNat - 1) (some msg.data)).filter
                  fun x => x.isSome).length = msg.of_frag.toNat)
          · rw [if_pos hc] at h
            obtain ⟨-, h2⟩ := Prod.mk.injEq .. ▸ h
            rw [← h2]
            exact ⟨lookupKey_eraseKey_self s.bykey (msg.path, msg.of_frag), rfl⟩
          · rw [if_neg hc] at h
            simp at h
    · rw [add_notResp s msg ht] at h
      simp at h
  · intro s msg ht hb hs
    exact add_duplicate s msg ht hb hs
  · intro s msg ht hb hs hlook hof
    rw [add_fresh s msg ht hb hs, hlook]
    have hrange : msg.frag.toNat - 1 < msg.of_frag.toNat := by
      unfold badMsg at hb
      push_neg at hb
      obtain ⟨_, _, hfr, hle⟩ := hb
      omega
    have hcount :
        ((((List.replicate msg.of_frag.toNat (none : Option Str)).set
          (msg.frag.toNat - 1) (some msg.data)).filter
            fun x => x.isSome).length) = 1 := by
      simpa using
        filter_isSome_replicate_set msg.of_frag.toNat (msg.frag.toNat - 1)
          msg.data hrange
    simp only [Option.getD_none, hcount]
    rw [if_neg (by omega)]

/-- C10 witness: concrete runs of the three amended clauses — a completing
delivery on a 2-fragment key erases the buffer and keeps the signature, a
duplicate after completion is ignored, and a fresh-signature fragment for a
buffer-less key lands in a newly created buffer with the progress result. -/
theorem completion_lifecycle_amended_witness :
    (lookupKey (⟨[], [("/a".data, 1, 1, 1)]⟩ : AssemblerState).bykey ("/a".data, 1) = none
      ∧ (⟨[], [("/a".data, 1, 1, 1)]⟩ : AssemblerState).seen
          = sigOf ⟨"RESP".data, "/a".data, 1, 1, "x".data⟩ :: [])
    ∧ add ⟨[], [("/a".data, 1, 1, 1)]⟩ ⟨"RESP".data, "/a".data, 1, 1, "x".data⟩
        = (.duplicate, ⟨[], [("/a".data, 1, 1, 1)]⟩)
    ∧ add initState ⟨"RESP".data, "/b".data, 2, 2, "z".data⟩
        = (.progress,
          ⟨setKey [] ("/b".data, 2)
            ((List.replicate (2 : Int).toNat none).set ((2 : Int).toNat - 1)
              (some "z".data)),
           sigOf ⟨"RESP".data, "/b".data, 2, 2, "z".data⟩ :: []⟩) :=
  ⟨completion_lifecycle_amended.1 initState ⟨"RESP".data, "/a".data, 1, 1, "x".data⟩
      "x".data ⟨[], [("/a".data, 1, 1, 1)]⟩ (by decide),
   completion_lifecycle_amended.2.1 ⟨[], [("/a".data, 1, 1, 1)]⟩
      ⟨"RESP".data, "/a".data, 1, 1, "x".data⟩ rfl (by decide) (by decide),
   completion_lifecycle_amended.2.2 initState ⟨"RESP".data, "/b".data, 2, 2, "z".data⟩
      rfl (by decide) (by decide) rfl (by decide)⟩

/-! ### client.py: the Retry Driver -/

/-- The missing-index computation of `start_client` in `client.py`:
`[i+1 for i, frag in enumerate(frag_list) if frag is None]`. -/
def missing_indices (frag_list : Buffer) : List Nat :=
  (frag_list.enum.filter fun p => p.2.isNone).map fun p => p.1 + 1

/-- State observed by one iteration of the retry loop in `start_client`: the
reassembly buffer for the tracked key, if any fragments have arrived, and the
last retry time `start`. -/
structure RetryState where
  buf : Option Buffer
  start : Nat
deriving DecidableEq, Repr

/-- Model of one iteration of the retry loop of `start_client` in
`client.py`: when a buffer exists, its missing indices are computed, and if
any are missing while the elapsed time exceeds the timeout, one
fragment-specific GET (as built by `send_get_request`) is sent per missing
index and the retry clock resets; when no fragments have been received yet
(`received_fragments` empty, so `key is None`), the body does nothing. -/
def retry_poll (now timeout : Nat) (path : Str) (s : RetryState) :
    List GetMsg × RetryState :=
  match s.buf with
  | none => ([], s)
  | some frag_list =>
    let missing := missing_indices frag_list
    if missing ≠ [] ∧ timeout < now - s.start then
      (missing.map fun i => ⟨"GET".data, path, some (Int.ofNat i)⟩,
        ⟨some frag_list, now⟩)
    else ([], s)

/-- C7: when the retry timeout has elapsed on an incomplete buffer, the GETs
emitted in that round are exactly one fragment-specific GET per missing index
and the retry clock resets to the current time; and for a 5-slot buffer with
only slot 3 empty the missing-index computation reports exactly `[3]`. -/
theorem retry_missing_exact (now timeout : Nat) (path : Str) (st : Nat)
    (frag_list : Buffer)
    (hm : missing_indices frag_list ≠ []) (ht : timeout < now - st) :
    retry_poll now timeout path ⟨some frag_list, st⟩
      = ((missing_indices frag_list).map
          fun i => ⟨"GET".data, path, some (Int.ofNat i)⟩,
        ⟨some frag_list, now⟩)
    ∧ (∀ (a b d e : Str),
        missing_indices [some a, some b, none, some d, some e] = [3]) := by
  constructor
  · simp only [retry_poll]
    rw [if_pos ⟨hm, ht⟩]
  · intro a b d e
    rfl

/-- C7 witness: with fragments 1, 2, 4, 5 delivered and 3 withheld, an
expired retry round emits exactly the GET for fragment 3 and resets the
clock. -/
theorem retry_missing_exact_witness :
    retry_poll 10 5 "/f.html".data
        ⟨some [some "1".data, some "2".data, none, some "4".data, some "5".data], 0⟩
      = ([⟨"GET".data, "/f.html".data, some 3⟩],
        ⟨some [some "1".data, some "2".data, none, some "4".data, some "5".data], 10⟩)
    ∧ missing_indices [some "1".data, some "2".data, none, some "4".data, some "5".data]
      = [3] :=
  ⟨(retry_missing_exact 10 5 "/f.html".data 0
      [some "1".data, some "2".data, none, some "4".data, some "5".data]
      (by decide) (by decide)).1,
   (retry_missing_exact 10 5 "/f.html".data 0
      [some "1".data, some "2".data, none, some "4".data, some "5".data]
      (by decide) (by decide)).2 "1".data "2".data "4".data "5".data⟩

/-- C8 counterexample: with no reassembly buffer created and the timeout long
expired, the retry loop of `start_client` emits nothing at all — in
particular it does not re-send the whole-resource GET (the GET with no
`frag`). -/
theorem no_buffer_retry_counterexample :
    retry_poll 10 5 "/index.html".data ⟨none, 0⟩ = ([], ⟨none, 0⟩)
    ∧ (retry_poll 10 5 "/index.html".data ⟨none, 0⟩).1
      ≠ [⟨"GET".data, "/index.html".data, none⟩] := by
  constructor
  · rfl
  · decide

/-- C8 (amended): if no reassembly buffer has been created yet when the retry
timeout elapses, the client emits no request at all — neither the original
whole-resource GET nor any fragment-specific GET; retries begin only once at
least one fragment has been received. -/
theorem no_buffer_retry_amended (now timeout : Nat) (path : Str) (st : Nat) :
    retry_poll now timeout path ⟨none, st⟩ = ([], ⟨none, st⟩) :=
  rfl

end MiniHTTP
